import Mathlib

/-!
Verification development for the ReAct agent core
(`src/core/react_engine.py`, `src/core/toolbus.py`, `src/core/tools_local.py`,
`src/core/trace.py`, `src/core/sink.py`, `src/core/model_adapter.py`).

The Python sources are shallowly embedded: pure computations become Lean
functions over `List Char` / `String`; module-level mutable state
(`tools_local._BASE_DIR`) becomes explicit state passing; code that can raise
returns `Except String`.  Wall-clock readings, file contents, process ids and
network traffic are outside the model; where a latency is recorded it is an
abstract `Nat` parameter, and where a file is opened the model computes the
path handed to `open`.
-/

/-! ## Python string primitives

Implemented over `List Char` with structural recursion so that concrete
computations reduce inside the kernel.  They model the CPython `str`
operations used by the sources (`strip`, `split` on a one-character
separator, `startswith`, slicing `[k:]`, `lower`, substring containment).
ASCII behaviour is modelled exactly; the sources only compare against ASCII
literals. -/

def pyIsSpace (c : Char) : Bool :=
  c = ' ' || c = '\t' || c = '\n' || c = '\r' || c = '\x0b' || c = '\x0c'

/-- `str.strip()`: drop whitespace from both ends. -/
def pyStrip (s : String) : String :=
  ⟨((s.data.dropWhile pyIsSpace).reverse.dropWhile pyIsSpace).reverse⟩

/-- `str.split(sep)` for a one-character separator, on the character list. -/
def pySplitAux (sep : Char) : List Char → List (List Char)
  | [] => [[]]
  | c :: t =>
    let r := pySplitAux sep t
    if c = sep then [] :: r
    else
      match r with
      | h :: rest => (c :: h) :: rest
      | [] => [[c]]

/-- `str.split(sep)` for a one-character separator. -/
def pySplit (sep : Char) (s : String) : List String :=
  (pySplitAux sep s.data).map fun l => ⟨l⟩

/-- Boolean list-prefix test (used for `str.startswith`). -/
def startsList : List Char → List Char → Bool
  | [], _ => true
  | _ :: _, [] => false
  | a :: as, b :: bs => a = b && startsList as bs

/-- `str.startswith(pre)`. -/
def pyStartsWith (s pre : String) : Bool :=
  startsList pre.data s.data

/-- `str[k:]` (slicing is by code points, as in CPython). -/
def pyDrop (s : String) (k : Nat) : String :=
  ⟨s.data.drop k⟩

/-- `str.lower()` (ASCII case mapping). -/
def pyLower (s : String) : String :=
  ⟨s.data.map Char.toLower⟩

/-- Substring containment on character lists (`needle in haystack`). -/
def containsRun (needle : List Char) : List Char → Bool
  | [] => decide (needle = [])
  | c :: t => startsList needle (c :: t) || containsRun needle t

/-- Python `sub in s` for strings. -/
def pyIn (sub s : String) : Bool :=
  containsRun sub.data s.data

/-- Python truthiness of an optional string (`None` and `""` are falsy). -/
def pyTruthy : Option String → Bool
  | none => false
  | some s => s ≠ ""

/-- Python `x or ""` for an optional string. -/
def pyOrEmpty (x : Option String) : String :=
  match x with
  | none => ""
  | some s => s

/-! ## Trace data model (`src/core/trace.py`)

`TraceStep` and `RunTrace` mirror the dataclasses.  Wall-clock fields
(`latency_s`, `start_time`, `end_time`, `created_at`), provenance strings
(`run_id`, `model`, `policy`, `case_id`), `model_usage` and `metrics` are
timing/identity metadata not consulted by any control flow and are left out
of the embedding; `tool_latency_s` is kept (as an abstract `Nat`) because the
engine copies the tool result's latency into it. -/

structure TraceStep where
  step : Nat
  thought : String
  action : Option String
  action_input : Option String
  observation : Option String
  tool_latency_s : Nat := 0
  error : Option String := none
deriving Repr, DecidableEq

structure RunTrace where
  task : String
  steps : List TraceStep := []
  final_answer : Option String := none
deriving Repr, DecidableEq

/-! ## Local tools (`src/core/tools_local.py`) -/

/-- Module-level mutable state of `tools_local`: the working directory
`_BASE_DIR` injected by `set_base_dir`.  It is a single process-wide value,
which the embedding passes explicitly. -/
structure ToolsLocalState where
  base_dir : String := "."
deriving Repr, DecidableEq

/-- `tools_local.set_base_dir(path)`: overwrite the module-global `_BASE_DIR`. -/
def set_base_dir (path : String) (_g : ToolsLocalState) : ToolsLocalState :=
  ⟨path⟩

/-- Public names of the `math` module (`dir(math)` without underscore names),
the basis of the calculator whitelist `_ALLOWED`. -/
def mathPublicNames : List String :=
  ["acos", "acosh", "asin", "asinh", "atan", "atan2", "atanh", "cbrt", "ceil",
   "comb", "copysign", "cos", "cosh", "degrees", "dist", "e", "erf", "erfc",
   "exp", "exp2", "expm1", "fabs", "factorial", "floor", "fmod", "frexp",
   "fsum", "gamma", "gcd", "hypot", "inf", "isclose", "isfinite", "isinf",
   "isnan", "isqrt", "lcm", "ldexp", "lgamma", "log", "log10", "log1p",
   "log2", "modf", "nan", "nextafter", "perm", "pi", "pow", "prod",
   "radians", "remainder", "sin", "sinh", "sqrt", "tan", "tanh", "tau",
   "trunc", "ulp"]

/-- `_ALLOWED = {k: getattr(math, k) for k in dir(math) if not k.startswith("_")}`
plus `abs`; the embedding keeps the key set. -/
def calcAllowed : List String := mathPublicNames ++ ["abs"]

mutual
/-- Python expression AST, as far as `compile(expr, "<calc>", "eval")` is
concerned for the safety check: what matters is the name table `co_names` of
the compiled OUTER code object.  `tuple` is a display literal (its elements
are compiled at the outer level); `lam` is any subexpression that CPython
compiles into a NESTED code object — a lambda, comprehension or generator
expression — whose body becomes a code constant of the outer object, so the
body's names live in the nested object's own `co_names`, invisible to the
outer table.  (Lambda default-value expressions are evaluated at the outer
level; model them as sibling outer subexpressions.) -/
inductive PyExpr where
  | num (n : Int)
  | name (s : String)
  | binop (op : String) (a b : PyExpr)
  | unop (op : String) (a : PyExpr)
  | call (f : PyExpr) (args : PyArgs)
  | attr (obj : PyExpr) (field : String)
  | tuple (elts : PyArgs)
  | lam (body : PyExpr)

inductive PyArgs where
  | nil
  | cons (head : PyExpr) (tail : PyArgs)
end

instance {ε α : Type} [DecidableEq ε] [DecidableEq α] :
    DecidableEq (Except ε α) := fun a b =>
  match a, b with
  | .error a, .error b => decidable_of_iff (a = b) (by simp)
  | .ok a, .ok b => decidable_of_iff (a = b) (by simp)
  | .error _, .ok _ => isFalse (by simp)
  | .ok _, .error _ => isFalse (by simp)

mutual
/-- `co_names` of the OUTER compiled code object: global-name loads and
attribute names at the outer level, as CPython records them.  A nested code
object (`lam`: lambda/comprehension/generator body) contributes nothing
here — its names sit in the nested object's own `co_names`, which
`tool_calculator` never inspects. -/
def coNames : PyExpr → List String
  | .num _ => []
  | .name s => [s]
  | .binop _ a b => coNames a ++ coNames b
  | .unop _ a => coNames a
  | .call f args => coNames f ++ coNamesArgs args
  | .attr obj f => coNames obj ++ [f]
  | .tuple elts => coNamesArgs elts
  | .lam _ => []

/-- `co_names` contributed by an expression list at the outer level. -/
def coNamesArgs : PyArgs → List String
  | .nil => []
  | .cons a rest => coNames a ++ coNamesArgs rest
end

mutual
/-- Every identifier and attribute name occurring syntactically anywhere in
the expression, nested code-object bodies included (unlike `coNames`). -/
def namesEverywhere : PyExpr → List String
  | .num _ => []
  | .name s => [s]
  | .binop _ a b => namesEverywhere a ++ namesEverywhere b
  | .unop _ a => namesEverywhere a
  | .call f args => namesEverywhere f ++ namesEverywhereArgs args
  | .attr obj f => namesEverywhere obj ++ [f]
  | .tuple elts => namesEverywhereArgs elts
  | .lam body => namesEverywhere body

/-- Names occurring anywhere in an expression list. -/
def namesEverywhereArgs : PyArgs → List String
  | .nil => []
  | .cons a rest => namesEverywhere a ++ namesEverywhereArgs rest
end

/-- `tool_calculator`: compile the expression, reject at the first name of
`co_names` outside `_ALLOWED`, and only then evaluate.  The evaluation
`eval(code, {"__builtins__": {}}, _ALLOWED)` is an opaque-to-this-model
interpreter passed in as `evalFn` (it may itself raise, hence `Except`). -/
def tool_calculator (evalFn : PyExpr → Except String String) (expr : PyExpr) :
    Except String String :=
  match (coNames expr).find? (fun n => ¬ calcAllowed.contains n) with
  | some n => .error ("不允许的名称: " ++ n)
  | none => evalFn expr

/-! ### Path safety (`_ensure_safe_path` and friends)

`os.path.isabs` / `os.path.normpath` / `os.path.join` are modelled with
POSIX semantics.  `_ensure_safe_path` evaluates `normpath` only on relative
paths (the `or` short-circuits on absolute ones), so `posixNormpath` below
implements the relative-path case of `posixpath.normpath`. -/

/-- `os.path.isabs(p)` (POSIX): the path starts with a slash. -/
def posixIsAbs (p : String) : Bool :=
  pyStartsWith p "/"

/-- One step of `posixpath.normpath`'s component scan (relative-path case):
skip empty and `.` components; append any other component unless it is `..`
arriving on a stack whose last entry is a real name, in which case pop. -/
def npStep (acc : List String) (comp : String) : List String :=
  if comp = "" ∨ comp = "." then acc
  else if comp ≠ ".." ∨ acc = [] ∨ acc.getLast? = some ".." then acc ++ [comp]
  else acc.dropLast

/-- The component list of `posixpath.normpath(p)` for a relative `p`. -/
def npComps (p : String) : List String :=
  (pySplit '/' p).foldl npStep []

/-- `'/'.join(comps)`. -/
def joinComps : List String → String
  | [] => ""
  | c :: cs => cs.foldl (fun a d => a ++ "/" ++ d) c

/-- `posixpath.normpath(p)` for a relative `p`: scan components, rejoin,
and return `"."` for an empty result. -/
def posixNormpath (p : String) : String :=
  let s := joinComps (npComps p)
  if s = "" then "." else s

/-- `_ensure_safe_path(path)`: raise unless the path is relative and its
normalized form is free of the substring `".."`; return the path unchanged
otherwise. -/
def _ensure_safe_path (path : String) : Except String String :=
  if posixIsAbs path || pyIn ".." (posixNormpath path) then
    .error "不允许的路径：仅允许相对路径且禁止 .."
  else
    .ok path

/-- `os.path.join(a, b)` (POSIX) for the two-argument uses in the sources. -/
def posixJoin (a b : String) : String :=
  if posixIsAbs b then b
  else if a = "" || pyStartsWith (⟨a.data.reverse⟩ : String) "/" then a ++ b
  else a ++ "/" ++ b

/-- `tool_read_file(path)` up to the filesystem: validates the path and
computes the full path handed to `open`; the read itself is outside the
model. -/
def tool_read_file_target (g : ToolsLocalState) (path : String) :
    Except String String :=
  (_ensure_safe_path path).map (fun p => posixJoin g.base_dir p)

/-- One step of operating-system path resolution: empty and `.` components
are no-ops, `..` removes the last segment, a name appends. -/
def rsStep (acc : List String) (c : String) : List String :=
  if c = "" ∨ c = "." then acc
  else if c = ".." then acc.dropLast
  else acc ++ [c]

/-- Semantic resolution of a relative path's raw components against a working
directory given as a segment list.  This is how the operating system resolves
`os.path.join(_BASE_DIR, path)` (symlinks aside). -/
def resolveSegs (base : List String) (segs : List String) : List String :=
  segs.foldl rsStep base

/-! ## Tool bus (`src/core/toolbus.py`)

`ToolResult` is a `dict`; the `latency_s` key is present only when the call
reached execution, hence an `Option Nat` field.  Tool implementations may
raise, hence `Except`; the measured wall time of an execution is abstracted
as the `elapsed` argument. -/

structure ToolResult where
  ok : Bool
  output : String
  error : Option String
  latency_s : Option Nat := none
deriving Repr, DecidableEq

/-- `LocalBus` instance state: the allow-set and the per-instance `_workdir`
attribute.  The tool registry `_tools` is carried as an association list of
possibly-raising implementations. -/
structure LocalBus where
  allow : List String
  tools : List (String × (String → Except String String))
  workdir : Option String := none

/-- `LocalBus.__init__(allow, workdir)`: an empty/None `allow` defaults to
every registered tool name, and a truthy `workdir` immediately rebinds the
module-global base directory. -/
def LocalBus.init (tools : List (String × (String → Except String String)))
    (allow : Option (List String)) (workdir : Option String)
    (g : ToolsLocalState) : LocalBus × ToolsLocalState :=
  let names := tools.map (·.1)
  let bus : LocalBus :=
    { allow := match allow with
        | some l => if l ≠ [] then l else names
        | none => names
      tools := tools
      workdir := workdir }
  match workdir with
  | some w => if w ≠ "" then (bus, set_base_dir w g) else (bus, g)
  | none => (bus, g)

/-- `LocalBus.set_workdir(path)`: store the path on the instance and rebind
the module-global `_BASE_DIR` shared by all instances. -/
def LocalBus.set_workdir (b : LocalBus) (path : String) (g : ToolsLocalState) :
    LocalBus × ToolsLocalState :=
  ({ b with workdir := some path }, set_base_dir path g)

/-- `LocalBus.call(name, arg)`: encode unknown/disallowed tools and tool
exceptions in the result record; never raise.  `elapsed` stands for the
measured `time.time() - t0` of an execution. -/
def LocalBus.call (b : LocalBus) (name : String) (arg : Option String)
    (elapsed : Nat) : ToolResult :=
  if ¬ b.allow.contains name then
    { ok := false, output := "", error := some ("工具未允许: " ++ name) }
  else
    match b.tools.lookup name with
    | none => { ok := false, output := "", error := some ("工具不存在: " ++ name) }
    | some f =>
      match f (pyOrEmpty arg) with
      | .ok out =>
        { ok := true, output := out, error := none, latency_s := some elapsed }
      | .error e =>
        { ok := false, output := "", error := some e, latency_s := some elapsed }

/-! ## Model adapter (`src/core/model_adapter.py`)

`KimiAdapter.chat` retries rate-limited calls up to `max_retries = 3` with
exponential backoff, re-raises any other exception immediately, and raises
`RuntimeError` once retries are exhausted.  The provider is abstracted as
`call : Nat → Except String String` giving each attempt's outcome; sleeping
is outside the model. -/

def kimiChatAux (call : Nat → Except String String) :
    Nat → Nat → Except String String
  | _, 0 => .error "RuntimeError: 未知错误"
  | attempt, remaining + 1 =>
    match call attempt with
    | .ok text => .ok text
    | .error e =>
      if pyIn "rate_limit" (pyLower e) || pyIn "429" e then
        if attempt < 3 - 1 then kimiChatAux call (attempt + 1) remaining
        else .error ("RuntimeError: 达到最大重试次数，仍然遇到速率限制: " ++ e)
      else .error e

/-- `KimiAdapter.chat`, with attempts delivered by `call`. -/
def kimiChat (call : Nat → Except String String) : Except String String :=
  kimiChatAux call 0 3

/-! ## ReAct engine (`src/core/react_engine.py`) -/

/-- Parser state of `ReactEngine._parse`: `thought, action, action_input,
final_answer = "", None, None, None`. -/
structure ParseState where
  thought : String := ""
  action : Option String := none
  action_input : Option String := none
  final_answer : Option String := none
deriving Repr, DecidableEq

namespace ReactEngine

/-- One line of `_parse`'s scan: strip the line, then test the three
line-anchored markers; an `Action` value equal to `"final answer"`
case-insensitively is canonicalized to `"Final Answer"`; an `Action Input`
becomes the final answer exactly when the action already parsed is the
canonical sentinel. -/
def parseLine (st : ParseState) (raw : String) : ParseState :=
  let line := pyStrip raw
  if pyStartsWith line "Thought:" then
    { st with thought := pyStrip (pyDrop line 8) }
  else if pyStartsWith line "Action:" then
    let a := pyStrip (pyDrop line 7)
    let a := if pyLower a = "final answer" then "Final Answer" else a
    { st with action := some a }
  else if pyStartsWith line "Action Input:" then
    let ai := pyStrip (pyDrop line 13)
    let fin := if st.action = some "Final Answer" then some ai
               else st.final_answer
    { st with action_input := some ai, final_answer := fin }
  else st

/-- `ReactEngine._parse(text)`: scan the stripped text line by line.  The
Python method returns the tuple `(final_answer, action, action_input,
thought)`; the embedding returns the whole `ParseState`. -/
def _parse (text : String) : ParseState :=
  (pySplit '\n' (pyStrip text)).foldl parseLine {}

/-- Engine composition `ReactEngine(model, tools, config, sink)`, with the
parts of `ReactConfig` and of the collaborators that the loop consults.  The
adapter is the response to the `i`-th `model.chat` call (1-based), raising
as `.error`; the tool bus is `(name, arg) ↦ ToolResult` (a `LocalBus.call`
never raises); `has_sink` is the truthiness of `self.sink`; `redactFn`
stands for `_redact`'s regex masking, applied when `redact_secrets`. -/
structure Engine where
  adapter : Nat → Except String String
  tools : String → String → ToolResult
  max_steps : Nat := 10
  redact_secrets : Bool := true
  redactFn : String → String := id
  has_sink : Bool := false

/-- `ReactEngine._redact`. -/
def Engine.redact (eng : Engine) (text : String) : String :=
  if eng.redact_secrets then eng.redactFn text else text

/-- Sink lifecycle notifications observed during a run, in call order. -/
inductive SinkEvent where
  | runStart
  | emitStep (step : Nat)
  | runEnd
deriving Repr, DecidableEq

/-- Python `obs or err or "No output"` for the observation of a tool step. -/
def obsOf (obs : String) (err : Option String) : String :=
  if obs ≠ "" then obs
  else match err with
    | some e => if e ≠ "" then e else "No output"
    | none => "No output"

/-- The dispatch guard `if action and action.lower() != 'none'`. -/
def dispatches (action : Option String) : Bool :=
  pyTruthy action && pyLower (pyOrEmpty action) ≠ "none"

/-- The `TraceStep` appended by a non-final iteration `i`. -/
def toolStep (eng : Engine) (i : Nat) (ps : ParseState) : TraceStep :=
  let res := eng.tools (pyOrEmpty ps.action) (pyOrEmpty ps.action_input)
  let dispatched := dispatches ps.action
  { step := i
    thought := eng.redact ps.thought
    action := ps.action
    action_input := ps.action_input
    observation := some (obsOf (if dispatched then res.output else "")
      (if dispatched then res.error else none))
    tool_latency_s := if dispatched then res.latency_s.getD 0 else 0
    error := none }

/-- The terminal `TraceStep` appended when a final answer was parsed. -/
def finalStep (eng : Engine) (i : Nat) (ps : ParseState) : TraceStep :=
  { step := i
    thought := eng.redact ps.thought
    action := none
    action_input := none
    observation := none }

/-- Joint outcome of the remaining loop iterations: parsed final answer (if
any), the steps appended from here on, and the sink calls they caused. -/
structure LoopOut where
  final : Option String := none
  steps : List TraceStep := []
  events : List SinkEvent := []
deriving Repr, DecidableEq

/-- The body of `run`'s `for i in range(1, max_steps + 1)` loop, starting at
iteration `i` with `fuel` iterations left.  A parsed final answer appends the
terminal step, notifies the sink (`emit_step` then `run_end`) and breaks;
otherwise the step (with tool dispatch when the guard holds) is appended,
`emit_step` fires, and the loop continues.  An adapter exception propagates:
nothing in `run` catches it. -/
def runLoop (eng : Engine) : Nat → Nat → Except String LoopOut
  | _, 0 => .ok {}
  | i, fuel + 1 =>
    match eng.adapter i with
    | .error e => .error e
    | .ok text =>
      let ps := _parse text
      match ps.final_answer with
      | some fin =>
        .ok { final := some fin
              steps := [finalStep eng i ps]
              events := if eng.has_sink then [.emitStep i, .runEnd] else [] }
      | none =>
        match runLoop eng (i + 1) fuel with
        | .error e => .error e
        | .ok out =>
          .ok { final := out.final
                steps := toolStep eng i ps :: out.steps
                events := (if eng.has_sink then [SinkEvent.emitStep i] else [])
                  ++ out.events }

/-- A sealed run together with the sink calls it performed. -/
structure RunResult where
  trace : RunTrace
  events : List SinkEvent
deriving Repr, DecidableEq

/-- `ReactEngine.run(task)`: notify `run_start` when a sink is configured,
iterate the loop from step 1, seal and return the trace.  Directory creation,
clock reads and `run_id` generation are outside the model. -/
def run (eng : Engine) (task : String) : Except String RunResult :=
  match runLoop eng 1 eng.max_steps with
  | .error e => .error e
  | .ok out =>
    .ok { trace := { task := task, steps := out.steps, final_answer := out.final }
          events := (if eng.has_sink then [SinkEvent.runStart] else [])
            ++ out.events }

end ReactEngine

/-! ## Helper lemmas -/

theorem startsList_append_self : ∀ (n t : List Char), startsList n (n ++ t) = true
  | [], _ => rfl
  | a :: as, t => by simp [startsList, startsList_append_self as t]

theorem containsRun_nil : ∀ h : List Char, containsRun [] h = true
  | [] => rfl
  | _ :: t => by simp [containsRun, startsList, containsRun_nil t]

theorem containsRun_of_parts : ∀ (pre n post : List Char),
    containsRun n (pre ++ (n ++ post)) = true := by
  intro pre
  induction pre with
  | nil =>
    intro n post
    cases n with
    | nil => exact containsRun_nil post
    | cons a as => simp [containsRun, startsList, startsList_append_self]
  | cons c pre ih =>
    intro n post
    simp [containsRun, ih n post]

theorem foldl_slash_data (xs : List String) :
    ∀ a : String, ∃ post,
      (xs.foldl (fun u d => u ++ "/" ++ d) a).data = a.data ++ post := by
  induction xs with
  | nil => exact fun a => ⟨[], by simp⟩
  | cons x xs ih =>
    intro a
    obtain ⟨post, hpost⟩ := ih (a ++ "/" ++ x)
    exact ⟨'/' :: x.data ++ post, by simp [hpost, String.data_append]⟩

theorem foldl_slash_mem (xs : List String) (c : String) :
    c ∈ xs → ∀ a : String, ∃ pre post,
      (xs.foldl (fun u d => u ++ "/" ++ d) a).data = pre ++ (c.data ++ post) := by
  induction xs with
  | nil => intro h; cases h
  | cons x xs ih =>
    intro hmem a
    rcases List.mem_cons.mp hmem with h | h
    · subst h
      obtain ⟨post, hpost⟩ := foldl_slash_data xs (a ++ "/" ++ c)
      exact ⟨a.data ++ ['/'], post, by simp [hpost, String.data_append]⟩
    · exact ih h (a ++ "/" ++ x)

theorem mem_joinComps_data {l : List String} {c : String} (h : c ∈ l) :
    ∃ pre post, (joinComps l).data = pre ++ (c.data ++ post) := by
  cases l with
  | nil => cases h
  | cons x xs =>
    rcases List.mem_cons.mp h with h' | h'
    · subst h'
      obtain ⟨post, hpost⟩ := foldl_slash_data xs c
      exact ⟨[], post, by simpa [joinComps] using hpost⟩
    · simpa [joinComps] using foldl_slash_mem xs c h' x

theorem pyIn_of_mem_npComps {p : String} (h : ".." ∈ npComps p) :
    pyIn ".." (posixNormpath p) = true := by
  obtain ⟨pre, post, hdata⟩ := mem_joinComps_data h
  have hne : joinComps (npComps p) ≠ "" := by
    intro he
    rw [he] at hdata
    have hnil : ([] : List Char) = pre ++ (['.', '.'] ++ post) := hdata
    simp at hnil
  have hval : posixNormpath p = joinComps (npComps p) := by
    simp only [posixNormpath]
    rw [if_neg hne]
  unfold pyIn
  rw [hval, hdata]
  exact containsRun_of_parts pre _ post

theorem getLast?_mem_self : ∀ {α : Type} (l : List α) (x : α),
    l.getLast? = some x → x ∈ l := by
  intro α l
  induction l with
  | nil => intro x h; cases h
  | cons a as ih =>
    intro x h
    cases as with
    | nil =>
      simp [List.getLast?] at h
      simp [h]
    | cons b bs =>
      rw [List.getLast?_cons_cons] at h
      exact List.mem_cons_of_mem a (ih x h)

theorem dropLast_append_ne_nil : ∀ {α : Type} (l₁ l₂ : List α), l₂ ≠ [] →
    (l₁ ++ l₂).dropLast = l₁ ++ l₂.dropLast := by
  intro α l₁ l₂ h
  induction l₁ with
  | nil => simp
  | cons a as ih =>
    have hne : as ++ l₂ ≠ [] := by
      simp only [ne_eq, List.append_eq_nil]
      rintro ⟨-, h2⟩
      exact h h2
    cases hcase : as ++ l₂ with
    | nil => exact absurd hcase hne
    | cons b bs =>
      simp only [List.cons_append, hcase, List.dropLast_cons₂, List.cons_append]
      rw [← hcase, ih]

theorem npFold_dotdot_mem : ∀ (segs : List String) (acc : List String),
    acc.head? = some ".." → ".." ∈ segs.foldl npStep acc := by
  intro segs
  induction segs with
  | nil =>
    intro acc hhead
    cases acc with
    | nil => cases hhead
    | cons a as =>
      have ha : a = ".." := by simpa using hhead
      simp [ha]
  | cons seg rest ih =>
    intro acc hhead
    rw [List.foldl_cons]
    apply ih
    cases acc with
    | nil => cases hhead
    | cons a as =>
      have ha : a = ".." := by simpa using hhead
      unfold npStep
      split
      · exact hhead
      · split
        · simpa using ha
        · next h2 =>
          push_neg at h2
          obtain ⟨-, -, hlast⟩ := h2
          cases as with
          | nil => exact absurd (by simp [ha]) hlast
          | cons b bs => simp [List.dropLast_cons₂, ha]

theorem npFold_resolve : ∀ (segs acc base : List String),
    ".." ∉ acc → ".." ∉ segs.foldl npStep acc →
    segs.foldl rsStep (base ++ acc) = base ++ segs.foldl npStep acc := by
  intro segs
  induction segs with
  | nil => intro acc base _ _; simp
  | cons seg rest ih =>
    intro acc base hacc hfold
    rw [List.foldl_cons] at hfold ⊢
    rw [List.foldl_cons]
    by_cases h0 : seg = "" ∨ seg = "."
    · have h1 : npStep acc seg = acc := by unfold npStep; rw [if_pos h0]
      have h2 : rsStep (base ++ acc) seg = base ++ acc := by
        unfold rsStep; rw [if_pos h0]
      rw [h1] at hfold
      rw [h1, h2]
      exact ih acc base hacc hfold
    · by_cases hdd : seg = ".."
      · subst hdd
        cases acc with
        | nil =>
          have hstep : npStep [] ".." = [".."] := by decide
          rw [hstep] at hfold
          exact absurd (npFold_dotdot_mem rest [".."] (by simp)) hfold
        | cons a as =>
          have hlast : (a :: as).getLast? ≠ some ".." := fun hl =>
            hacc (getLast?_mem_self (a :: as) ".." hl)
          have h1 : npStep (a :: as) ".." = (a :: as).dropLast := by
            unfold npStep
            rw [if_neg (by simp), if_neg ?hcond]
            case hcond =>
              push_neg
              exact ⟨rfl, by simp, hlast⟩
          have h2 : rsStep (base ++ a :: as) ".." = (base ++ a :: as).dropLast := by
            unfold rsStep
            rw [if_neg (by simp), if_pos rfl]
          have h3 : (base ++ a :: as).dropLast = base ++ (a :: as).dropLast :=
            dropLast_append_ne_nil base (a :: as) (by simp)
          have hsub : ".." ∉ (a :: as).dropLast := fun hm =>
            hacc (List.mem_of_mem_dropLast hm)
          rw [h1] at hfold
          rw [h1, h2, h3]
          exact ih ((a :: as).dropLast) base hsub hfold
      · have h1 : npStep acc seg = acc ++ [seg] := by
          unfold npStep
          rw [if_neg h0, if_pos (Or.inl hdd)]
        have h2 : rsStep (base ++ acc) seg = base ++ acc ++ [seg] := by
          unfold rsStep
          rw [if_neg h0, if_neg hdd]
        have hsub : ".." ∉ acc ++ [seg] := by
          intro hm
          rcases List.mem_append.mp hm with h | h
          · exact hacc h
          · simp at h
            exact hdd h.symm
        rw [h1] at hfold
        rw [h1, h2, List.append_assoc]
        exact ih (acc ++ [seg]) base hsub hfold

theorem runLoop_total (eng : ReactEngine.Engine)
    (h : ∀ j, ∃ t, eng.adapter j = .ok t) :
    ∀ (fuel i : Nat), ∃ o, ReactEngine.runLoop eng i fuel = .ok o ∧
      (1 ≤ fuel → o.steps ≠ []) := by
  intro fuel
  induction fuel with
  | zero => exact fun i => ⟨{}, rfl, by omega⟩
  | succ n ih =>
    intro i
    obtain ⟨t, ht⟩ := h i
    cases hf : (ReactEngine._parse t).final_answer with
    | some fin =>
      refine ⟨⟨some fin, [ReactEngine.finalStep eng i (ReactEngine._parse t)],
        if eng.has_sink then [.emitStep i, .runEnd] else []⟩, ?_, fun _ => by simp⟩
      simp [ReactEngine.runLoop, ht, hf]
    | none =>
      obtain ⟨o, ho, -⟩ := ih (i + 1)
      refine ⟨⟨o.final, ReactEngine.toolStep eng i (ReactEngine._parse t) :: o.steps,
        (if eng.has_sink then [ReactEngine.SinkEvent.emitStep i] else [])
          ++ o.events⟩, ?_, fun _ => by simp⟩
      simp [ReactEngine.runLoop, ht, hf, ho]

theorem ensure_safe_ok_elim {p : String}
    (h : (_ensure_safe_path p).isOk = true) :
    _ensure_safe_path p = .ok p ∧ posixIsAbs p = false ∧
      pyIn ".." (posixNormpath p) = false := by
  unfold _ensure_safe_path at h ⊢
  split at h
  · simp [Except.isOk, Except.toBool] at h
  · next hc =>
    have hc' : (posixIsAbs p || pyIn ".." (posixNormpath p)) = false := by
      simpa using hc
    simp only [Bool.or_eq_false_iff] at hc'
    exact ⟨by rw [if_neg (by simp [hc'.1, hc'.2])], hc'.1, hc'.2⟩

/-! ## Claims -/

/-- C1: the spec requires the sink lifecycle `run_start` (once, before the
first model call), `emit_step` (once per appended step, in order) and
`run_end` (exactly once at any terminal state, after the last `emit_step`).
The code only calls `run_end` on the final-answer branch: a run that
terminates by exhausting `max_steps` never triggers `run_end`, as this
evaluation of a one-step exhausted run with a sink shows — the observed
events are `run_start` and one `emit_step`, with no `run_end`. -/
theorem c1_no_run_end_on_max_steps_exhaustion :
    ReactEngine.run
      { adapter := fun _ => .ok "Thought: still thinking"
        tools := fun _ _ => { ok := false, output := "", error := some "e" }
        max_steps := 1
        has_sink := true } "demo" =
      .ok ⟨⟨"demo", [⟨1, "still thinking", none, none, some "No output", 0, none⟩],
        none⟩, [.runStart, .emitStep 1]⟩ ∧
    ReactEngine.SinkEvent.runEnd ∉
      [ReactEngine.SinkEvent.runStart, ReactEngine.SinkEvent.emitStep 1] :=
  ⟨by decide, by decide⟩

/-- C2 (counterexample): an adapter exception is not caught by `run()`.
With a `KimiAdapter`-style adapter whose provider raises a fatal
(non-rate-limit) error, the exception propagates out of `run` unchanged. -/
theorem c2_adapter_exception_escapes_run :
    ReactEngine.run
      { adapter := fun _ => kimiChat (fun _ => .error "AuthenticationError: invalid API key")
        tools := fun _ _ => { ok := false, output := "", error := some "e" }
        max_steps := 3 } "demo" =
      .error "AuthenticationError: invalid API key" := by decide

/-- C2 (amended): when every adapter call returns normally, `run()` always
returns a sealed RunTrace, for every tool-bus behaviour (tool failures are
encoded in results, never raised); only adapter (and sink) exceptions can
escape. -/
theorem c2_run_returns_trace_when_adapter_ok (eng : ReactEngine.Engine)
    (task : String) (h : ∀ j, ∃ t, eng.adapter j = .ok t) :
    ∃ r, ReactEngine.run eng task = .ok r := by
  obtain ⟨o, ho, -⟩ := runLoop_total eng h eng.max_steps 1
  refine ⟨⟨⟨task, o.steps, o.final⟩,
    (if eng.has_sink then [ReactEngine.SinkEvent.runStart] else []) ++ o.events⟩, ?_⟩
  simp [ReactEngine.run, ho]

/-- C2 (witness): the amended theorem applied to a concrete engine whose
adapter always answers. -/
theorem c2_witness :
    ∃ r, ReactEngine.run
      { adapter := fun _ => .ok "x"
        tools := fun _ _ => { ok := false, output := "", error := some "e" } }
      "t" = .ok r :=
  c2_run_returns_trace_when_adapter_ok _ "t" (fun _ => ⟨"x", rfl⟩)

/-- C3: with an adapter that never produces a final-answer marker, `run()`
does terminate after exactly `max_steps` recorded steps — but the returned
`RunTrace` dataclass has no status field at all, so no terminal status
`MAX_STEPS_EXCEEDED` is carried: the full returned value is shown below,
and the only outcome signal is `final_answer = None`. -/
theorem c3_exhausted_run_carries_no_status :
    ReactEngine.run
      { adapter := fun _ => .ok "Thought: still thinking"
        tools := fun _ _ => { ok := false, output := "", error := some "e" }
        max_steps := 2 } "demo" =
      .ok ⟨⟨"demo", [⟨1, "still thinking", none, none, some "No output", 0, none⟩,
        ⟨2, "still thinking", none, none, some "No output", 0, none⟩],
        none⟩, []⟩ := by decide

/-- C4 (counterexample): a parsed Action equal to the sentinel is not by
itself a final-answer signal.  When the model output carries
`Action: Final Answer` with no `Action Input` line, `_parse` canonicalizes
the action but leaves `final_answer = None`, and the engine dispatches the
literal tool name `"Final Answer"` to the bus and keeps looping — here for
the full two steps, with no final answer recorded. -/
theorem c4_sentinel_without_input_keeps_looping :
    (ReactEngine._parse "Action: Final Answer").action = some "Final Answer" ∧
    ReactEngine.run
      { adapter := fun _ => .ok "Action: Final Answer"
        tools := fun n _ => { ok := false, output := "", error := some ("工具未允许: " ++ n) }
        max_steps := 2 } "demo" =
      .ok ⟨⟨"demo",
        [⟨1, "", some "Final Answer", none, some "工具未允许: Final Answer", 0, none⟩,
         ⟨2, "", some "Final Answer", none, some "工具未允许: Final Answer", 0, none⟩],
        none⟩, []⟩ :=
  ⟨by decide, by decide⟩

/-- C4 (amended): whenever `_parse` extracts a final answer — which happens
exactly when an `Action Input` line follows an `Action` line whose value
matches the sentinel "Final Answer" case-insensitively — the engine appends
one terminal step (action and input cleared), sets `final_answer` to that
text and stops after that single step; parsing itself tolerates absent
fields.  With a first-call final-answer marker this gives exactly one
recorded step carrying the literal answer. -/
theorem c4_parsed_final_answer_ends_run_in_one_step (eng : ReactEngine.Engine)
    (task t a : String) (h1 : eng.adapter 1 = .ok t)
    (h2 : (ReactEngine._parse t).final_answer = some a)
    (h3 : 1 ≤ eng.max_steps) :
    ∃ r, ReactEngine.run eng task = .ok r ∧
      r.trace.final_answer = some a ∧
      r.trace.steps = [ReactEngine.finalStep eng 1 (ReactEngine._parse t)] ∧
      (ReactEngine.finalStep eng 1 (ReactEngine._parse t)).action = none ∧
      (ReactEngine.finalStep eng 1 (ReactEngine._parse t)).action_input = none := by
  obtain ⟨k, hk⟩ : ∃ k, eng.max_steps = k + 1 := ⟨eng.max_steps - 1, by omega⟩
  refine ⟨⟨⟨task, [ReactEngine.finalStep eng 1 (ReactEngine._parse t)], some a⟩,
    (if eng.has_sink then [ReactEngine.SinkEvent.runStart] else []) ++
      (if eng.has_sink
        then [ReactEngine.SinkEvent.emitStep 1, ReactEngine.SinkEvent.runEnd]
        else [])⟩, ?_, rfl, rfl, rfl, rfl⟩
  simp [ReactEngine.run, hk, ReactEngine.runLoop, h1, h2]

/-- C4 (witness): the amended theorem at a scripted adapter whose first call
returns a case-insensitively matched final-answer marker with answer "42". -/
theorem c4_witness :
    ∃ r, ReactEngine.run
      { adapter := fun _ => .ok "Action: FINAL answer\nAction Input: 42"
        tools := fun _ _ => { ok := false, output := "", error := some "e" }
        max_steps := 3 } "task" = .ok r ∧
      r.trace.final_answer = some "42" ∧
      r.trace.steps = [ReactEngine.finalStep
        { adapter := fun _ => .ok "Action: FINAL answer\nAction Input: 42"
          tools := fun _ _ => { ok := false, output := "", error := some "e" }
          max_steps := 3 } 1
        (ReactEngine._parse "Action: FINAL answer\nAction Input: 42")] ∧
      (ReactEngine.finalStep
        { adapter := fun _ => .ok "Action: FINAL answer\nAction Input: 42"
          tools := fun _ _ => { ok := false, output := "", error := some "e" }
          max_steps := 3 } 1
        (ReactEngine._parse "Action: FINAL answer\nAction Input: 42")).action = none ∧
      (ReactEngine.finalStep
        { adapter := fun _ => .ok "Action: FINAL answer\nAction Input: 42"
          tools := fun _ _ => { ok := false, output := "", error := some "e" }
          max_steps := 3 } 1
        (ReactEngine._parse "Action: FINAL answer\nAction Input: 42")).action_input
        = none :=
  c4_parsed_final_answer_ends_run_in_one_step _ "task"
    "Action: FINAL answer\nAction Input: 42" "42" rfl (by decide) (by decide)

/-- Steps appended for a model reply from which `_parse` extracts nothing:
no tool dispatch happens and the observation falls back to "No output". -/
theorem toolStep_of_default_parse (eng : ReactEngine.Engine) (i : Nat) :
    (ReactEngine.toolStep eng i {}).action = none ∧
    (ReactEngine.toolStep eng i {}).observation = some "No output" ∧
    (ReactEngine.toolStep eng i {}).action_input = none := by
  refine ⟨rfl, ?_, rfl⟩
  simp [ReactEngine.toolStep, ReactEngine.dispatches, pyTruthy, ReactEngine.obsOf]

theorem runLoop_unparsed (eng : ReactEngine.Engine)
    (h : ∀ j, ∃ t, eng.adapter j = .ok t ∧ ReactEngine._parse t = {}) :
    ∀ (fuel i : Nat), ∃ o, ReactEngine.runLoop eng i fuel = .ok o ∧
      o.final = none ∧ o.steps.length = fuel ∧
      ∀ s ∈ o.steps, s.action = none ∧ s.observation = some "No output" := by
  intro fuel
  induction fuel with
  | zero => exact fun i => ⟨{}, rfl, rfl, rfl, by simp⟩
  | succ n ih =>
    intro i
    obtain ⟨t, ht, hp⟩ := h i
    obtain ⟨o, ho, hfin, hlen, hall⟩ := ih (i + 1)
    refine ⟨⟨o.final, ReactEngine.toolStep eng i {} :: o.steps,
      (if eng.has_sink then [ReactEngine.SinkEvent.emitStep i] else [])
        ++ o.events⟩, ?_, hfin, by simp [hlen], ?_⟩
    · simp [ReactEngine.runLoop, ht, hp, ho]
    · intro s hs
      rcases List.mem_cons.mp hs with h' | h'
      · subst h'
        obtain ⟨ha, hb, -⟩ := toolStep_of_default_parse eng i
        exact ⟨ha, hb⟩
      · exact hall s h'

/-- C5 (counterexample): when no structured field is extracted from the
model text, the engine does not fall back to treating the raw text as the
final answer.  With an adapter that always replies "hello world", the
two-step run records two no-action steps with observation "No output" and
ends with `final_answer = None` — it keeps looping instead of stopping. -/
theorem c5_unparsed_text_not_taken_as_final :
    ReactEngine._parse "hello world" = {} ∧
    ReactEngine.run
      { adapter := fun _ => .ok "hello world"
        tools := fun _ _ => { ok := false, output := "", error := some "e" }
        max_steps := 2 } "demo" =
      .ok ⟨⟨"demo", [⟨1, "", none, none, some "No output", 0, none⟩,
        ⟨2, "", none, none, some "No output", 0, none⟩], none⟩, []⟩ :=
  ⟨by decide, by decide⟩

/-- C5 (amended): if every model reply parses to no structured fields, the
engine appends a step with no action and observation "No output" at every
iteration and continues; the run ends only by exhausting `max_steps`, with
no final answer — termination is guaranteed by the step bound, not by any
raw-text fallback. -/
theorem c5_unparsed_replies_loop_to_max_steps (eng : ReactEngine.Engine)
    (task : String)
    (h : ∀ j, ∃ t, eng.adapter j = .ok t ∧ ReactEngine._parse t = {}) :
    ∃ r, ReactEngine.run eng task = .ok r ∧
      r.trace.final_answer = none ∧
      r.trace.steps.length = eng.max_steps ∧
      ∀ s ∈ r.trace.steps, s.action = none ∧ s.observation = some "No output" := by
  obtain ⟨o, ho, hfin, hlen, hall⟩ := runLoop_unparsed eng h eng.max_steps 1
  refine ⟨⟨⟨task, o.steps, o.final⟩,
    (if eng.has_sink then [ReactEngine.SinkEvent.runStart] else []) ++ o.events⟩,
    ?_, hfin, hlen, hall⟩
  simp [ReactEngine.run, ho]

/-- C5 (witness): the amended theorem at a concrete engine whose adapter
always replies markerless text. -/
theorem c5_witness :
    ∃ r, ReactEngine.run
      { adapter := fun _ => .ok "hello"
        tools := fun _ _ => { ok := false, output := "", error := some "e" }
        max_steps := 2 } "demo" = .ok r ∧
      r.trace.final_answer = none ∧
      r.trace.steps.length =
        ({ adapter := fun _ => .ok "hello"
           tools := fun _ _ => { ok := false, output := "", error := some "e" }
           max_steps := 2 } : ReactEngine.Engine).max_steps ∧
      ∀ s ∈ r.trace.steps, s.action = none ∧ s.observation = some "No output" :=
  c5_unparsed_replies_loop_to_max_steps _ "demo"
    (fun _ => ⟨"hello", rfl, by decide⟩)

/-- C6 (counterexample): the latency field is not present in every result.
A disallowed tool and an unknown tool both return a record whose
`latency_s` key is missing (`none`), refuting "the latency field is present
in every result". -/
theorem c6_latency_missing_on_refused_calls :
    LocalBus.call { allow := ["calculator"], tools := [] } "read_file"
      (some "x") 7 =
      { ok := false, output := "", error := some "工具未允许: read_file",
        latency_s := none } ∧
    LocalBus.call { allow := ["ghost"], tools := [] } "ghost" none 7 =
      { ok := false, output := "", error := some "工具不存在: ghost",
        latency_s := none } :=
  ⟨by decide, by decide⟩

/-- C6 (amended): `call` is total (never raises) and encodes every failure
mode — disallowed tool, unknown tool, tool exception — as `ok = False` with
an error message; the latency field is present exactly when the call reached
tool execution (success or exception), and a tool exception is returned as
the full record shown. -/
theorem c6_call_total_and_encodes_failures (b : LocalBus) (name : String)
    (arg : Option String) (elapsed : Nat) :
    ((LocalBus.call b name arg elapsed).ok = false →
      ((LocalBus.call b name arg elapsed).error).isSome) ∧
    ((LocalBus.call b name arg elapsed).latency_s.isSome ↔
      b.allow.contains name ∧ (b.tools.lookup name).isSome) ∧
    (∀ f e, b.allow.contains name → b.tools.lookup name = some f →
      f (pyOrEmpty arg) = .error e →
      LocalBus.call b name arg elapsed =
        { ok := false, output := "", error := some e,
          latency_s := some elapsed }) := by
  by_cases hA : b.allow.contains name = true
  · have hmem : name ∈ b.allow := by simpa using hA
    cases hL : b.tools.lookup name with
    | none =>
      have hcall : LocalBus.call b name arg elapsed =
          { ok := false, output := "", error := some ("工具不存在: " ++ name),
            latency_s := none } := by
        unfold LocalBus.call
        rw [if_neg (by simpa using hA)]
        simp only [hL]
      refine ⟨fun _ => by simp [hcall], ?_, ?_⟩
      · simp [hcall]
      · intro f e _ hL' _
        simp at hL'
    | some f =>
      cases hres : f (pyOrEmpty arg) with
      | ok out =>
        have hcall : LocalBus.call b name arg elapsed =
            { ok := true, output := out, error := none,
              latency_s := some elapsed } := by
          unfold LocalBus.call
          rw [if_neg (by simpa using hA)]
          simp only [hL, hres]
        refine ⟨?_, ?_, ?_⟩
        · intro hok
          rw [hcall] at hok
          cases hok
        · simp [hcall, hmem]
        · intro f' e _ hL' hres'
          cases hL'
          rw [hres] at hres'
          cases hres'
      | error e =>
        have hcall : LocalBus.call b name arg elapsed =
            { ok := false, output := "", error := some e,
              latency_s := some elapsed } := by
          unfold LocalBus.call
          rw [if_neg (by simpa using hA)]
          simp only [hL, hres]
        refine ⟨fun _ => by simp [hcall], ?_, ?_⟩
        · simp [hcall, hmem]
        · intro f' e' _ hL' hres'
          cases hL'
          rw [hres] at hres'
          cases hres'
          exact hcall
  · have hmem : name ∉ b.allow := by simpa using hA
    have hcall : LocalBus.call b name arg elapsed =
        { ok := false, output := "", error := some ("工具未允许: " ++ name),
          latency_s := none } := by
      unfold LocalBus.call
      rw [if_pos hA]
    refine ⟨fun _ => by simp [hcall], ?_, ?_⟩
    · simp [hcall, hmem]
    · intro f e hA' _ _
      exact absurd hA' hA

/-- C6 (witness): the amended theorem applied to a bus whose single tool
raises; the failure is encoded with the latency key present. -/
theorem c6_witness :
    LocalBus.call
      { allow := ["t1"],
        tools := [("t1", fun _ => .error "ZeroDivisionError: division by zero")] }
      "t1" none 3 =
      { ok := false, output := "", error := some "ZeroDivisionError: division by zero",
        latency_s := some 3 } :=
  (c6_call_total_and_encodes_failures
    { allow := ["t1"],
      tools := [("t1", fun _ => .error "ZeroDivisionError: division by zero")] }
    "t1" none 3).2.2 _ "ZeroDivisionError: division by zero" rfl rfl rfl

/-- C7 (counterexample): the expression
`(lambda: ().__class__.__bases__[0].__subclasses__())()` — CPython compiles
the lambda body into a nested code object, so the attribute names
`__class__`, `__bases__`, `__subclasses__` sit in the nested object's name
table and the outer `co_names` that `tool_calculator` iterates is empty. -/
def escapeExpr : PyExpr :=
  .call (.lam (.call (.attr (.binop "[]"
    (.attr (.attr (.tuple .nil) "__class__") "__bases__") (.num 0))
    "__subclasses__") .nil)) .nil

/-- C7 (counterexample): expressions that confine their out-of-whitelist
references to a nested code-object body defeat the whitelist.  The escape
expression references `__subclasses__` (and two more dunder attributes),
none of which is in `_ALLOWED`, yet its outer `co_names` is empty, so the
check passes and the expression is handed to `eval` — the outcome is
whatever evaluation does, shown with two evaluators, refuting "rejection
before evaluation, no arbitrary code path executes". -/
theorem c7_lambda_body_escapes_whitelist :
    coNames escapeExpr = [] ∧
    "__subclasses__" ∈ namesEverywhere escapeExpr ∧
    "__subclasses__" ∉ calcAllowed ∧
    tool_calculator (fun _ => .ok "[<class type>, <class os.wrapper>]")
      escapeExpr = .ok "[<class type>, <class os.wrapper>]" ∧
    tool_calculator (fun _ => .error "TypeError: raised inside the lambda")
      escapeExpr = .error "TypeError: raised inside the lambda" :=
  ⟨rfl, by decide, by decide, rfl, rfl⟩

/-- C7 (amended): the calculator compiles first and refuses before
evaluating, but the check covers only the OUTER code object's name table:
if any name in the outer `co_names` lies outside `_ALLOWED`, the result is
the rejection error for some such name, identically for every evaluator —
no code path of the expression executes.  Names confined to nested
code-object bodies (lambda/comprehension/generator) are outside this
guarantee. -/
theorem c7_calculator_rejects_before_eval
    (evalFn evalFn' : PyExpr → Except String String) (e : PyExpr) (n : String)
    (h1 : n ∈ coNames e) (h2 : n ∉ calcAllowed) :
    (∃ m, m ∈ coNames e ∧ m ∉ calcAllowed ∧
      tool_calculator evalFn e = .error ("不允许的名称: " ++ m)) ∧
    tool_calculator evalFn e = tool_calculator evalFn' e := by
  have hfind : ((coNames e).find? (fun n => ¬ calcAllowed.contains n)).isSome := by
    rw [List.find?_isSome]
    exact ⟨n, h1, by simpa using h2⟩
  obtain ⟨m, hm⟩ := Option.isSome_iff_exists.mp hfind
  have hmem := List.mem_of_find?_eq_some hm
  have hprop : m ∉ calcAllowed := by simpa using List.find?_some hm
  refine ⟨⟨m, hmem, hprop, ?_⟩, ?_⟩
  · unfold tool_calculator
    rw [hm]
  · unfold tool_calculator
    rw [hm]

/-- C7 (witness): the theorem applied to the expression `__import__(1)`
with two different evaluators; the rejection is identical for both. -/
theorem c7_witness :
    (∃ m, m ∈ coNames (.call (.name "__import__") (.cons (.num 1) .nil)) ∧
      m ∉ calcAllowed ∧
      tool_calculator (fun _ => .ok "os module")
        (.call (.name "__import__") (.cons (.num 1) .nil)) =
        .error ("不允许的名称: " ++ m)) ∧
    tool_calculator (fun _ => .ok "os module")
        (.call (.name "__import__") (.cons (.num 1) .nil)) =
      tool_calculator (fun _ => .error "boom")
        (.call (.name "__import__") (.cons (.num 1) .nil)) :=
  c7_calculator_rejects_before_eval _ _ _ "__import__" (by decide) (by decide)

/-- C8 (counterexample): a path that contains a parent-directory traversal
segment is not always rejected: `"a/../b"` has the segment `".."` in its
raw component list, yet `_ensure_safe_path` accepts it because the segment
collapses under `normpath` before the substring check. -/
theorem c8_collapsing_traversal_accepted :
    _ensure_safe_path "a/../b" = .ok "a/../b" ∧
    ".." ∈ pySplit '/' "a/../b" :=
  ⟨by decide, by decide⟩

/-- C8 (amended): `_ensure_safe_path` accepts exactly the relative paths
whose normalized form is free of the substring `".."`.  Every accepted path
is relative, its normalized component list contains no `".."`, and resolving
its raw components against any working directory yields the working
directory's segments extended by the normalized components — so an accepted
path can never escape the bound working directory. -/
theorem c8_accepted_paths_stay_in_workdir (p : String) (base : List String)
    (h : (_ensure_safe_path p).isOk = true) :
    posixIsAbs p = false ∧ ".." ∉ npComps p ∧
    resolveSegs base (pySplit '/' p) = base ++ npComps p := by
  obtain ⟨-, habs, hpy⟩ := ensure_safe_ok_elim h
  have hns : ".." ∉ npComps p := fun hm => by
    rw [pyIn_of_mem_npComps hm] at hpy
    cases hpy
  refine ⟨habs, hns, ?_⟩
  have := npFold_resolve (pySplit '/' p) [] base (by simp) (by
    simpa [npComps] using hns)
  simpa [resolveSegs, npComps] using this

/-- C8 (witness): the amended theorem applied to the accepted path
`"docs/a.txt"` against the working directory `runs/r1`. -/
theorem c8_witness :
    posixIsAbs "docs/a.txt" = false ∧ ".." ∉ npComps "docs/a.txt" ∧
    resolveSegs ["runs", "r1"] (pySplit '/' "docs/a.txt") =
      ["runs", "r1"] ++ npComps "docs/a.txt" :=
  c8_accepted_paths_stay_in_workdir "docs/a.txt" ["runs", "r1"] (by decide)

/-- C9 (counterexample): `set_workdir` does not bind only its own instance.
Two separate `LocalBus` instances are bound to `runs/A` and `runs/B` in
turn; afterwards the first instance still records `_workdir = runs/A`, but
the module-global base directory — the one every file tool consults — holds
`runs/B`, so a file tool dispatched through the first bus resolves
`f.txt` to `runs/B/f.txt`. -/
theorem c9_workdir_binding_is_process_global :
    ((LocalBus.set_workdir { allow := ["read_file"], tools := [] } "runs/A"
      ⟨"."⟩).1).workdir = some "runs/A" ∧
    (LocalBus.set_workdir { allow := ["read_file"], tools := [] } "runs/B"
      ((LocalBus.set_workdir { allow := ["read_file"], tools := [] } "runs/A"
        ⟨"."⟩).2)).2 = ⟨"runs/B"⟩ ∧
    tool_read_file_target
      ((LocalBus.set_workdir { allow := ["read_file"], tools := [] } "runs/B"
        ((LocalBus.set_workdir { allow := ["read_file"], tools := [] } "runs/A"
          ⟨"."⟩).2)).2) "f.txt" = .ok "runs/B/f.txt" :=
  ⟨rfl, rfl, by decide⟩

/-- C9 (amended): `set_workdir` records the path in the calling instance's
`_workdir` attribute but rebinds the single module-global `_BASE_DIR` that
all file tools read; after any two bindings, for every bus and every
accepted path, file tools resolve against the most recent binding,
whichever instance made it — separate instances therefore share one
effective working directory and can interfere. -/
theorem c9_last_set_workdir_wins (b1 b2 : LocalBus) (p1 p2 : String)
    (g0 : ToolsLocalState) (path : String)
    (h : (_ensure_safe_path path).isOk = true) :
    ((LocalBus.set_workdir b2 p2 ((LocalBus.set_workdir b1 p1 g0).2)).2).base_dir
      = p2 ∧
    tool_read_file_target
      ((LocalBus.set_workdir b2 p2 ((LocalBus.set_workdir b1 p1 g0).2)).2) path =
      .ok (posixJoin p2 path) := by
  obtain ⟨hok, -, -⟩ := ensure_safe_ok_elim h
  exact ⟨rfl, by simp [tool_read_file_target, hok, Except.map,
    LocalBus.set_workdir, set_base_dir]⟩

/-- C9 (witness): the amended theorem at two concrete buses bound to
`runs/A` then `runs/B` and the accepted path `f.txt`. -/
theorem c9_witness :
    ((LocalBus.set_workdir { allow := [], tools := [] } "runs/B"
      ((LocalBus.set_workdir { allow := [], tools := [] } "runs/A"
        ⟨"."⟩).2)).2).base_dir = "runs/B" ∧
    tool_read_file_target
      ((LocalBus.set_workdir { allow := [], tools := [] } "runs/B"
        ((LocalBus.set_workdir { allow := [], tools := [] } "runs/A"
          ⟨"."⟩).2)).2) "f.txt" = .ok (posixJoin "runs/B" "f.txt") :=
  c9_last_set_workdir_wins { allow := [], tools := [] }
    { allow := [], tools := [] } "runs/A" "runs/B" ⟨"."⟩ "f.txt" (by decide)

/-- C10 (counterexample): a failed tool call's error message is not stored
in the step's `error` field.  The bus returns `ok=False, error="E"`; the
appended step carries `observation = "E"` and `error = None` — the message
lands in `observation` via the `obs or err or "No output"` fallback, and
the dataclass's `error` field keeps its `None` default. -/
theorem c10_tool_error_lands_in_observation :
    ReactEngine.run
      { adapter := fun _ => .ok "Action: mytool\nAction Input: z"
        tools := fun _ _ => ⟨false, "", some "E", some 5⟩
        max_steps := 1 } "demo" =
      .ok ⟨⟨"demo", [⟨1, "", some "mytool", some "z", some "E", 5, none⟩],
        none⟩, []⟩ := by decide

/-- C10 (amended): when the first reply parses to a non-empty action that is
not the `'none'` sentinel (and no final answer), the engine dispatches it on
the bus and appends a step whose `observation` holds the tool output — or,
when the output is falsy, the tool's error message, else "No output" — whose
`tool_latency_s` holds the result's latency (0 when the key is absent), and
whose `error` field is always `None`; the loop then continues to the next
iteration.  The tool error message is never stored in the step's `error`
field. -/
theorem c10_dispatched_action_captures_tool_result (eng : ReactEngine.Engine)
    (task t th act ai : String)
    (hall : ∀ j, ∃ u, eng.adapter j = .ok u)
    (h1 : eng.adapter 1 = .ok t)
    (hp : ReactEngine._parse t =
      { thought := th, action := some act, action_input := some ai,
        final_answer := none })
    (hact : act ≠ "") (hnone : pyLower act ≠ "none")
    (hms : 2 ≤ eng.max_steps) :
    ∃ r rest, ReactEngine.run eng task = .ok r ∧
      r.trace.steps =
        { step := 1, thought := eng.redact th, action := some act,
          action_input := some ai,
          observation := some (ReactEngine.obsOf (eng.tools act ai).output
            (eng.tools act ai).error),
          tool_latency_s := (eng.tools act ai).latency_s.getD 0,
          error := none } :: rest ∧
      rest ≠ [] := by
  have hstep : ReactEngine.toolStep eng 1 (ReactEngine._parse t) =
      { step := 1, thought := eng.redact th, action := some act,
        action_input := some ai,
        observation := some (ReactEngine.obsOf (eng.tools act ai).output
          (eng.tools act ai).error),
        tool_latency_s := (eng.tools act ai).latency_s.getD 0,
        error := none } := by
    rw [hp]
    simp [ReactEngine.toolStep, ReactEngine.dispatches, pyTruthy, pyOrEmpty,
      hact, hnone]
  obtain ⟨k, hk⟩ : ∃ k, eng.max_steps = k + 2 := ⟨eng.max_steps - 2, by omega⟩
  obtain ⟨o, ho, hne⟩ := runLoop_total eng hall (k + 1) 2
  refine ⟨⟨⟨task, ReactEngine.toolStep eng 1 (ReactEngine._parse t) :: o.steps,
    o.final⟩,
    (if eng.has_sink then [ReactEngine.SinkEvent.runStart] else []) ++
      ((if eng.has_sink then [ReactEngine.SinkEvent.emitStep 1] else [])
        ++ o.events)⟩,
    o.steps, ?_, by rw [hstep], hne (by omega)⟩
  have hk' : eng.max_steps = (k + 1) + 1 := by omega
  generalize hG : k + 1 = m at ho hk'
  simp [ReactEngine.run, hk', ReactEngine.runLoop, h1, hp, ho]

/-- C10 (witness): the amended theorem at a scripted reply
`Action: t1 / Action Input: z` and a bus answering `ok=False, error="E",
latency=7`: the first step stores "E" in `observation`, 7 in
`tool_latency_s`, `None` in `error`, and the loop continues. -/
theorem c10_witness :
    ∃ r rest, ReactEngine.run
      { adapter := fun _ => .ok "Action: t1\nAction Input: z"
        tools := fun _ _ => ⟨false, "", some "E", some 7⟩
        max_steps := 2 } "demo" = .ok r ∧
      r.trace.steps = ⟨1, "", some "t1", some "z", some "E", 7, none⟩ :: rest ∧
      rest ≠ [] := by
  obtain ⟨r, rest, ha, hb, hc⟩ :=
    c10_dispatched_action_captures_tool_result
      { adapter := fun _ => .ok "Action: t1\nAction Input: z"
        tools := fun _ _ => ⟨false, "", some "E", some 7⟩
        max_steps := 2 } "demo" "Action: t1\nAction Input: z" "" "t1" "z"
      (fun _ => ⟨"Action: t1\nAction Input: z", rfl⟩) rfl (by decide)
      (by decide) (by decide) (by decide)
  exact ⟨r, rest, ha, hb, hc⟩
